import Mathlib

/-!
Shallow embedding of the seekgits deterministic cipher and filter engine
(`src/lib/crypto.ts`, `src/commands/*` filter code, `src/lib/gitattributes.ts`,
`src/lib/secrets.ts`).

Byte strings are `List Nat`.  The AES-256 block function and the SHA-256
compression function are external library primitives (Node's `crypto`), not
code of this repository; they are abstracted as a `CryptoPrim` parameter:
`hmacSha256 key msg` is the HMAC digest and `aesCtrKeystream key iv i` is the
`i`-th keystream byte of AES-256-CTR under `key` with initial counter `iv`.
CTR mode is the xor of the plaintext with that keystream, which is what
`createCipheriv('aes-256-ctr', ...)` computes.  Theorems that need it assume
the digest is 32 bytes long, which is true of HMAC-SHA256.
-/

namespace Seekgits

/-- `AES_KEY_SIZE` from `src/types.ts`. -/
def AES_KEY_SIZE : Nat := 32

/-- `HMAC_KEY_SIZE` from `src/types.ts`. -/
def HMAC_KEY_SIZE : Nat := 32

/-- `FILE_KEY_SIZE` from `src/types.ts`. -/
def FILE_KEY_SIZE : Nat := AES_KEY_SIZE + HMAC_KEY_SIZE

/-- `NONCE_SIZE` from `src/types.ts` (HMAC-SHA256 output size). -/
def NONCE_SIZE : Nat := 32

/-- `AES_IV_SIZE` from `src/types.ts`. -/
def AES_IV_SIZE : Nat := 16

/-- `MAGIC_HEADER = Buffer.from('\0SEEKGITS\0')` from `src/types.ts`. -/
def MAGIC_HEADER : List Nat := [0x00, 0x53, 0x45, 0x45, 0x4B, 0x47, 0x49, 0x54, 0x53, 0x00]

/-- The two halves produced by `splitFileKey`. -/
structure SplitKey where
  aesKey : List Nat
  hmacKey : List Nat
deriving DecidableEq, Repr

/-- Error message thrown by `splitFileKey` for a wrong-sized key. -/
def invalidKeySizeMsg (got : Nat) : String :=
  "Invalid file key size: expected " ++ toString FILE_KEY_SIZE ++ ", got " ++ toString got

/-- External crypto primitives (Node `crypto` module), abstracted. -/
structure CryptoPrim where
  hmacSha256 : List Nat → List Nat → List Nat
  aesCtrKeystream : List Nat → List Nat → Nat → Nat

/-- `splitFileKey` from `src/lib/crypto.ts`: check the 64-byte size, then
`subarray(0, 32)` and `subarray(32, 64)`. -/
def splitFileKey (fileKey : List Nat) : Except String SplitKey :=
  if fileKey.length = FILE_KEY_SIZE then
    .ok ⟨fileKey.take AES_KEY_SIZE, (fileKey.drop AES_KEY_SIZE).take HMAC_KEY_SIZE⟩
  else
    .error (invalidKeySizeMsg fileKey.length)

/-- `computeNonce` from `src/lib/crypto.ts`: HMAC-SHA256 of the plaintext. -/
def computeNonce (prim : CryptoPrim) (hmacKey plaintext : List Nat) : List Nat :=
  prim.hmacSha256 hmacKey plaintext

/-- Xor a byte list against a keystream starting at stream position `i`. -/
def ctrXorFrom (ks : Nat → Nat) : Nat → List Nat → List Nat
  | _, [] => []
  | i, b :: rest => Nat.xor b (ks i) :: ctrXorFrom ks (i + 1) rest

/-- AES-256-CTR as performed by `createCipheriv('aes-256-ctr', key, iv)`:
xor with the keystream determined by `key` and `iv`. -/
def aesCtr (prim : CryptoPrim) (key iv data : List Nat) : List Nat :=
  ctrXorFrom (prim.aesCtrKeystream key iv) 0 data

/-- `encrypt` from `src/lib/crypto.ts`: split the key, derive the nonce from
the plaintext, use its first 16 bytes as IV, and emit
`MAGIC_HEADER ++ nonce ++ ciphertext`. -/
def encrypt (prim : CryptoPrim) (plaintext fileKey : List Nat) : Except String (List Nat) :=
  match splitFileKey fileKey with
  | .error e => .error e
  | .ok keys =>
    let nonce := computeNonce prim keys.hmacKey plaintext
    let iv := nonce.take AES_IV_SIZE
    let ciphertext := aesCtr prim keys.aesKey iv plaintext
    .ok (MAGIC_HEADER ++ nonce ++ ciphertext)

/-- Error message thrown by `decrypt` on a missing magic header. -/
def notEncryptedMsg : String := "Invalid encrypted file: missing SEEKGITS header"

/-- `decrypt` from `src/lib/crypto.ts`: verify the magic header, split the
key, read the nonce at bytes 10..41 and the ciphertext from byte 42 on, and
xor the ciphertext against the keystream again. -/
def decrypt (prim : CryptoPrim) (encrypted fileKey : List Nat) : Except String (List Nat) :=
  if encrypted.take MAGIC_HEADER.length ≠ MAGIC_HEADER then
    .error notEncryptedMsg
  else
    match splitFileKey fileKey with
    | .error e => .error e
    | .ok keys =>
      let nonce := (encrypted.drop MAGIC_HEADER.length).take NONCE_SIZE
      let ciphertext := encrypted.drop (MAGIC_HEADER.length + NONCE_SIZE)
      let iv := nonce.take AES_IV_SIZE
      .ok (aesCtr prim keys.aesKey iv ciphertext)

/-- `isEncrypted` from `src/lib/crypto.ts`. -/
def isEncrypted (data : List Nat) : Bool :=
  if data.length < MAGIC_HEADER.length then false
  else decide (data.take MAGIC_HEADER.length = MAGIC_HEADER)

/-- Trivial instantiation of the external primitives, used to evaluate the
model on concrete inputs. -/
def prim0 : CryptoPrim :=
  ⟨fun _ _ => List.replicate NONCE_SIZE 0, fun _ _ _ => 0⟩

/-- A concrete 64-byte key for concrete evaluations. -/
def key0 : List Nat := List.replicate FILE_KEY_SIZE 7

lemma ctrXorFrom_length (ks : Nat → Nat) (i : Nat) (l : List Nat) :
    (ctrXorFrom ks i l).length = l.length := by
  induction l generalizing i with
  | nil => rfl
  | cons b rest ih => simp [ctrXorFrom, ih]

lemma ctrXorFrom_involutive (ks : Nat → Nat) (i : Nat) (l : List Nat) :
    ctrXorFrom ks i (ctrXorFrom ks i l) = l := by
  induction l generalizing i with
  | nil => rfl
  | cons b rest ih =>
    have h : Nat.xor (Nat.xor b (ks i)) (ks i) = b := Nat.xor_cancel_right (ks i) b
    simp [ctrXorFrom, ih, h]

lemma splitFileKey_ok (k : List Nat) (hk : k.length = FILE_KEY_SIZE) :
    splitFileKey k = .ok ⟨k.take AES_KEY_SIZE, (k.drop AES_KEY_SIZE).take HMAC_KEY_SIZE⟩ := by
  simp [splitFileKey, hk]

lemma encrypt_eq (prim : CryptoPrim) (p k : List Nat) (hk : k.length = FILE_KEY_SIZE) :
    encrypt prim p k =
      .ok (MAGIC_HEADER ++ prim.hmacSha256 ((k.drop AES_KEY_SIZE).take HMAC_KEY_SIZE) p ++
        aesCtr prim (k.take AES_KEY_SIZE)
          ((prim.hmacSha256 ((k.drop AES_KEY_SIZE).take HMAC_KEY_SIZE) p).take AES_IV_SIZE) p) := by
  simp [encrypt, splitFileKey_ok k hk, computeNonce]

/-- C1 round-trip, general form over the frame parts. -/
lemma decrypt_frame (prim : CryptoPrim) (k nonce ct : List Nat)
    (hk : k.length = FILE_KEY_SIZE) (hn : nonce.length = NONCE_SIZE) :
    decrypt prim (MAGIC_HEADER ++ nonce ++ ct) k =
      .ok (aesCtr prim (k.take AES_KEY_SIZE) (nonce.take AES_IV_SIZE) ct) := by
  have hmagic : (MAGIC_HEADER ++ nonce ++ ct).take MAGIC_HEADER.length = MAGIC_HEADER := by
    rw [List.append_assoc, List.take_left]
  have hdrop : (MAGIC_HEADER ++ nonce ++ ct).drop MAGIC_HEADER.length = nonce ++ ct := by
    rw [List.append_assoc, List.drop_left]
  have hdrop2 : (MAGIC_HEADER ++ nonce ++ ct).drop (MAGIC_HEADER.length + NONCE_SIZE) = ct := by
    refine List.drop_left' ?_
    simp [hn, MAGIC_HEADER, NONCE_SIZE]
  have htake : (nonce ++ ct).take NONCE_SIZE = nonce := List.take_left' hn
  have hdrop3 : (nonce ++ ct).drop NONCE_SIZE = ct := List.drop_left' hn
  simp [decrypt, hmagic, hdrop, hdrop2, hdrop3, htake, splitFileKey_ok k hk]

/-- Round-trip over the abstract frame: decrypt after encrypt is the
identity whenever the key has the right size and the digest is 32 bytes. -/
lemma decrypt_encrypt (prim : CryptoPrim) (k p : List Nat)
    (hhmac : ∀ key msg, (prim.hmacSha256 key msg).length = NONCE_SIZE)
    (hk : k.length = FILE_KEY_SIZE) :
    ∃ c, encrypt prim p k = .ok c ∧ decrypt prim c k = .ok p := by
  refine ⟨_, encrypt_eq prim p k hk, ?_⟩
  rw [decrypt_frame prim k _ _ hk (hhmac _ _)]
  simp [aesCtr, ctrXorFrom_involutive]

/-- C1: For every 64-byte FileKey `k` and every byte string `p` (including
the empty string and arbitrary binary content), `decrypt(encrypt(p, k), k)`
returns exactly `p`, byte for byte.  Stated for every `List Nat`, hence in
particular for byte strings; the digest primitive is assumed 32 bytes wide
as HMAC-SHA256 is. -/
theorem c1_decrypt_encrypt_roundtrip (prim : CryptoPrim) (k p : List Nat)
    (hhmac : ∀ key msg, (prim.hmacSha256 key msg).length = NONCE_SIZE)
    (hk : k.length = FILE_KEY_SIZE) :
    ∃ c, encrypt prim p k = .ok c ∧ decrypt prim c k = .ok p :=
  decrypt_encrypt prim k p hhmac hk

/-- Witness for C1 at the trivial primitives, a concrete 64-byte key and the
plaintext `[1, 2, 3]`. -/
theorem c1_decrypt_encrypt_roundtrip_witness :
    ∃ c, encrypt prim0 [1, 2, 3] key0 = .ok c ∧ decrypt prim0 c key0 = .ok [1, 2, 3] :=
  c1_decrypt_encrypt_roundtrip prim0 key0 [1, 2, 3]
    (fun _ _ => by simp [prim0, NONCE_SIZE]) (by simp [key0, FILE_KEY_SIZE])

/-- C2: For every 64-byte FileKey `k` and every byte string `p`, two runs of
`encrypt(p, k)` produce byte-identical output: `encrypt` uses no randomness
(the nonce is the HMAC of the plaintext), so in the embedding it is a pure
function and two runs are literally the same value. -/
theorem c2_encrypt_deterministic (prim : CryptoPrim) (k p : List Nat) :
    encrypt prim p k = encrypt prim p k := rfl

/-- C3: For every 64-byte FileKey `k` and every byte string `p`,
`encrypt(p, k)` is the ten magic bytes, then the 32-byte HMAC-SHA256 of the
full plaintext under `hmac_key` (bytes 32..63 of `k`), then the AES-256-CTR
encryption of `p` under `aes_key` (bytes 0..31 of `k`) with IV the first 16
bytes of that nonce; in particular the output length is `42 + len(p)`. -/
theorem c3_encrypt_format (prim : CryptoPrim) (k p : List Nat)
    (hhmac : ∀ key msg, (prim.hmacSha256 key msg).length = NONCE_SIZE)
    (hk : k.length = FILE_KEY_SIZE) :
    encrypt prim p k =
      .ok (MAGIC_HEADER ++ computeNonce prim ((k.drop AES_KEY_SIZE).take HMAC_KEY_SIZE) p ++
        aesCtr prim (k.take AES_KEY_SIZE)
          ((computeNonce prim ((k.drop AES_KEY_SIZE).take HMAC_KEY_SIZE) p).take AES_IV_SIZE) p)
    ∧ ∀ c, encrypt prim p k = .ok c → c.length = 42 + p.length := by
  refine ⟨encrypt_eq prim p k hk, ?_⟩
  intro c hc
  rw [encrypt_eq prim p k hk] at hc
  cases hc
  simp [MAGIC_HEADER, computeNonce, aesCtr, ctrXorFrom_length, hhmac, NONCE_SIZE]
  omega

/-- Witness for C3 at the trivial primitives and the plaintext `[5]`. -/
theorem c3_encrypt_format_witness :
    encrypt prim0 [5] key0 =
      .ok (MAGIC_HEADER ++ computeNonce prim0 ((key0.drop AES_KEY_SIZE).take HMAC_KEY_SIZE) [5] ++
        aesCtr prim0 (key0.take AES_KEY_SIZE)
          ((computeNonce prim0 ((key0.drop AES_KEY_SIZE).take HMAC_KEY_SIZE) [5]).take AES_IV_SIZE)
          [5])
    ∧ ∀ c, encrypt prim0 [5] key0 = .ok c → c.length = 42 + [5].length :=
  c3_encrypt_format prim0 key0 [5]
    (fun _ _ => by simp [prim0, NONCE_SIZE]) (by simp [key0, FILE_KEY_SIZE])

/-- C4: For every 64-byte FileKey `k` and byte string `b`, `decrypt(b, k)`
fails (with the NotEncrypted error) iff the first 10 bytes of `b` are not the
magic marker; a `b` that does begin with the marker decrypts to some
plaintext without error even under a wrong key. -/
theorem c4_decrypt_magic_iff (prim : CryptoPrim) (k b : List Nat)
    (hk : k.length = FILE_KEY_SIZE) :
    ((∃ e, decrypt prim b k = .error e) ↔ b.take MAGIC_HEADER.length ≠ MAGIC_HEADER)
    ∧ (b.take MAGIC_HEADER.length ≠ MAGIC_HEADER → decrypt prim b k = .error notEncryptedMsg)
    ∧ (b.take MAGIC_HEADER.length = MAGIC_HEADER → ∃ p, decrypt prim b k = .ok p) := by
  by_cases hb : b.take MAGIC_HEADER.length = MAGIC_HEADER
  · refine ⟨?_, fun h => absurd hb h, fun _ => ?_⟩
    · simp [decrypt, hb, splitFileKey_ok k hk]
    · exact ⟨aesCtr prim (k.take AES_KEY_SIZE)
        (((b.drop MAGIC_HEADER.length).take NONCE_SIZE).take AES_IV_SIZE)
        (b.drop (MAGIC_HEADER.length + NONCE_SIZE)),
        by simp [decrypt, hb, splitFileKey_ok k hk]⟩
  · refine ⟨?_, fun _ => by simp [decrypt, hb], fun h => absurd h hb⟩
    simp [decrypt, hb]

/-- Witness for C4: a 64-byte key, and the body instantiated on a buffer
that does not start with the magic marker. -/
theorem c4_decrypt_magic_iff_witness :
    ((∃ e, decrypt prim0 [1, 2] key0 = .error e) ↔
      List.take MAGIC_HEADER.length [1, 2] ≠ MAGIC_HEADER)
    ∧ (List.take MAGIC_HEADER.length [1, 2] ≠ MAGIC_HEADER →
        decrypt prim0 [1, 2] key0 = .error notEncryptedMsg)
    ∧ (List.take MAGIC_HEADER.length [1, 2] = MAGIC_HEADER →
        ∃ p, decrypt prim0 [1, 2] key0 = .ok p) :=
  c4_decrypt_magic_iff prim0 key0 [1, 2] (by simp [key0, FILE_KEY_SIZE])

/-- C7: For every 64-byte FileKey `k` and byte strings `p ≠ p'`,
`encrypt(p, k) ≠ encrypt(p', k)`: with a fixed key, equal frames force equal
nonces, hence equal keystreams, and the xor layer is injective. -/
theorem c7_encrypt_injective (prim : CryptoPrim) (k p q : List Nat)
    (hhmac : ∀ key msg, (prim.hmacSha256 key msg).length = NONCE_SIZE)
    (hk : k.length = FILE_KEY_SIZE) (hne : p ≠ q) :
    encrypt prim p k ≠ encrypt prim q k := by
  intro h
  rw [encrypt_eq prim p k hk, encrypt_eq prim q k hk] at h
  simp only [Except.ok.injEq] at h
  have hlen : (MAGIC_HEADER ++ prim.hmacSha256 ((k.drop AES_KEY_SIZE).take HMAC_KEY_SIZE) p).length
      = (MAGIC_HEADER ++ prim.hmacSha256 ((k.drop AES_KEY_SIZE).take HMAC_KEY_SIZE) q).length := by
    simp [hhmac]
  obtain ⟨h1, h2⟩ := List.append_inj h hlen
  have hnonce := List.append_cancel_left h1
  rw [hnonce] at h2
  apply hne
  have := congrArg (aesCtr prim (k.take AES_KEY_SIZE)
    ((prim.hmacSha256 ((k.drop AES_KEY_SIZE).take HMAC_KEY_SIZE) q).take AES_IV_SIZE)) h2
  simpa [aesCtr, ctrXorFrom_involutive] using this

/-- Witness for C7 at the trivial primitives: `[0]` and `[1]` encrypt to
different frames under a concrete 64-byte key. -/
theorem c7_encrypt_injective_witness :
    encrypt prim0 [0] key0 ≠ encrypt prim0 [1] key0 :=
  c7_encrypt_injective prim0 key0 [0] [1]
    (fun _ _ => by simp [prim0, NONCE_SIZE]) (by simp [key0, FILE_KEY_SIZE]) (by simp)

/-- C10: For every key `k` whose length is not 64 bytes, both `encrypt` and
`decrypt` on a MAGIC-prefixed buffer fail with the invalid-file-key-size
error raised by `splitFileKey` before producing output, and for every
64-byte key that error branch is unreachable (`splitFileKey` succeeds). -/
theorem c10_key_size_guard (prim : CryptoPrim) (k p b : List Nat)
    (hk : k.length ≠ FILE_KEY_SIZE) :
    encrypt prim p k = .error (invalidKeySizeMsg k.length)
    ∧ decrypt prim (MAGIC_HEADER ++ b) k = .error (invalidKeySizeMsg k.length)
    ∧ splitFileKey k = .error (invalidKeySizeMsg k.length)
    ∧ ∀ g, g.length = FILE_KEY_SIZE → ∃ s, splitFileKey g = .ok s := by
  have hsplit : splitFileKey k = .error (invalidKeySizeMsg k.length) := by
    simp [splitFileKey, hk]
  have hmagic : (MAGIC_HEADER ++ b).take MAGIC_HEADER.length = MAGIC_HEADER :=
    List.take_left MAGIC_HEADER b
  refine ⟨by simp [encrypt, hsplit], by simp [decrypt, hmagic, hsplit], hsplit, ?_⟩
  intro g hg
  exact ⟨_, splitFileKey_ok g hg⟩

/-! ### Filter engine (`src/commands/` filter code: `filterCommand`,
`handleEncrypt`, `handleDecrypt`)

The filesystem and GPG context of one invocation is passed explicitly:
whether `secrets.json` exists, whether the path is tracked, and the result
of `getFileKey` (a key, or the error it threw). -/

/-- The two filter actions dispatched by `filterCommand`. -/
inductive FilterAction
  | encrypt
  | decrypt
deriving DecidableEq, Repr

/-- What one filter invocation writes: the bytes on stdout and whether a
warning went to the diagnostic channel (stderr). -/
structure FilterOutput where
  stdout : List Nat
  warned : Bool
deriving DecidableEq, Repr

/-- `handleEncrypt` from the filter command source: pass through when the
input already carries the magic header; otherwise try `getFileKey` and
`encrypt`, and on any failure warn and pass the plaintext through. -/
def handleEncrypt (prim : CryptoPrim) (fileKey : Except String (List Nat))
    (plaintext : List Nat) : FilterOutput :=
  if isEncrypted plaintext then ⟨plaintext, false⟩
  else
    match fileKey with
    | .error _ => ⟨plaintext, true⟩
    | .ok k =>
      match encrypt prim plaintext k with
      | .ok c => ⟨c, false⟩
      | .error _ => ⟨plaintext, true⟩

/-- UTF-8 bytes of an ASCII string (`Buffer.from(s)`), as code points. -/
def strBytes (s : String) : List Nat := s.data.map Char.toNat

/-- `handleDecrypt` from the filter command source: pass through when the
input does not carry the magic header; otherwise try `getFileKey` and
`decrypt`, and on any failure warn and write the placeholder line. -/
def handleDecrypt (prim : CryptoPrim) (file : String)
    (fileKey : Except String (List Nat)) (ciphertext : List Nat) : FilterOutput :=
  if isEncrypted ciphertext then
    match fileKey with
    | .error _ => ⟨strBytes ("[ENCRYPTED: Cannot decrypt " ++ file ++ "]\n"), true⟩
    | .ok k =>
      match decrypt prim ciphertext k with
      | .ok p => ⟨p, false⟩
      | .error _ => ⟨strBytes ("[ENCRYPTED: Cannot decrypt " ++ file ++ "]\n"), true⟩
  else ⟨ciphertext, false⟩

/-- `filterCommand` from the filter command source: pass through when the
manifest is missing or the path untracked, else dispatch on the action. -/
def filterCommand (prim : CryptoPrim) (secretsFileExists tracked : Bool)
    (fileKey : Except String (List Nat)) (action : FilterAction) (file : String)
    (input : List Nat) : FilterOutput :=
  if secretsFileExists = false then ⟨input, false⟩
  else if tracked = false then ⟨input, false⟩
  else
    match action with
    | .encrypt => handleEncrypt prim fileKey input
    | .decrypt => handleDecrypt prim file fileKey input

lemma isEncrypted_iff (b : List Nat) :
    isEncrypted b = true ↔ b.take MAGIC_HEADER.length = MAGIC_HEADER := by
  unfold isEncrypted
  by_cases h : b.length < MAGIC_HEADER.length
  · rw [if_pos h]
    constructor
    · intro hfalse; simp at hfalse
    · intro heq
      have hlen := congrArg List.length heq
      simp only [List.length_take] at hlen
      omega
  · rw [if_neg h]
    simp

lemma encrypt_isEncrypted (prim : CryptoPrim) (k p c : List Nat)
    (h : encrypt prim p k = .ok c) : isEncrypted c = true := by
  unfold encrypt at h
  cases hs : splitFileKey k with
  | error e => rw [hs] at h; cases h
  | ok keys =>
    rw [hs] at h
    simp only [Except.ok.injEq] at h
    rw [isEncrypted_iff, ← h, List.append_assoc, List.take_left]

lemma handleEncrypt_idem (prim : CryptoPrim) (fileKey : Except String (List Nat))
    (p : List Nat) :
    handleEncrypt prim fileKey (handleEncrypt prim fileKey p).stdout
      = handleEncrypt prim fileKey p := by
  unfold handleEncrypt
  by_cases hp : isEncrypted p = true
  · simp [hp]
  · simp only [hp]
    cases fileKey with
    | error e => simp [hp]
    | ok k =>
      cases he : encrypt prim p k with
      | error e => simp [hp, he]
      | ok c => simp [hp, he, encrypt_isEncrypted prim k p c he]

/-- C5: For every clean-filter invocation on path `P` with input bytes `b`:
if the manifest is missing, or `P` is untracked, or `b` begins with the
magic marker, stdout is exactly `b` (and repeated clean is idempotent); if
obtaining the FileKey fails, a warning is emitted and stdout is exactly
`b`; otherwise stdout is the encrypted frame of `b` — content is never
discarded. -/
theorem c5_filter_clean (prim : CryptoPrim) (se tr : Bool)
    (fileKey : Except String (List Nat)) (file : String) (b : List Nat) :
    (se = false ∨ tr = false ∨ b.take MAGIC_HEADER.length = MAGIC_HEADER →
      filterCommand prim se tr fileKey .encrypt file b = ⟨b, false⟩)
    ∧ (se = true → tr = true → b.take MAGIC_HEADER.length ≠ MAGIC_HEADER →
        (∃ e, fileKey = .error e) →
        filterCommand prim se tr fileKey .encrypt file b = ⟨b, true⟩)
    ∧ (∀ k, se = true → tr = true → b.take MAGIC_HEADER.length ≠ MAGIC_HEADER →
        fileKey = .ok k → k.length = FILE_KEY_SIZE →
        ∃ c, encrypt prim b k = .ok c ∧
          filterCommand prim se tr fileKey .encrypt file b = ⟨c, false⟩)
    ∧ filterCommand prim se tr fileKey .encrypt file
        (filterCommand prim se tr fileKey .encrypt file b).stdout
      = filterCommand prim se tr fileKey .encrypt file b := by
  refine ⟨?_, ?_, ?_, ?_⟩
  · rintro (hse | htr | hmagic)
    · simp [filterCommand, hse]
    · cases se <;> simp [filterCommand, htr]
    · cases se <;> cases tr <;>
        simp [filterCommand, handleEncrypt, (isEncrypted_iff b).mpr hmagic]
  · rintro hse htr hmagic ⟨e, he⟩
    have hne : isEncrypted b = false := by
      rw [← Bool.not_eq_true, isEncrypted_iff]; exact hmagic
    simp [filterCommand, hse, htr, handleEncrypt, hne, he]
  · rintro k hse htr hmagic hkey hk
    have hne : isEncrypted b = false := by
      rw [← Bool.not_eq_true, isEncrypted_iff]; exact hmagic
    refine ⟨_, encrypt_eq prim b k hk, ?_⟩
    simp [filterCommand, hse, htr, handleEncrypt, hne, hkey, encrypt_eq prim b k hk]
  · cases se with
    | false => simp [filterCommand]
    | true =>
      cases tr with
      | false => simp [filterCommand]
      | true => simp [filterCommand, handleEncrypt_idem]

/-- Witness for C5: manifest present, path tracked, key available, on the
non-magic input `[1, 2, 3]`. -/
theorem c5_filter_clean_witness :
    ((true = false ∨ true = false ∨
        List.take MAGIC_HEADER.length [1, 2, 3] = MAGIC_HEADER →
      filterCommand prim0 true true (.ok key0) .encrypt "a.env" [1, 2, 3] = ⟨[1, 2, 3], false⟩)
    ∧ (true = true → true = true →
        List.take MAGIC_HEADER.length [1, 2, 3] ≠ MAGIC_HEADER →
        (∃ e, (Except.ok key0 : Except String (List Nat)) = .error e) →
        filterCommand prim0 true true (.ok key0) .encrypt "a.env" [1, 2, 3] = ⟨[1, 2, 3], true⟩)
    ∧ (∀ k, true = true → true = true →
        List.take MAGIC_HEADER.length [1, 2, 3] ≠ MAGIC_HEADER →
        (Except.ok key0 : Except String (List Nat)) = .ok k → k.length = FILE_KEY_SIZE →
        ∃ c, encrypt prim0 [1, 2, 3] k = .ok c ∧
          filterCommand prim0 true true (.ok key0) .encrypt "a.env" [1, 2, 3] = ⟨c, false⟩)
    ∧ filterCommand prim0 true true (.ok key0) .encrypt "a.env"
        (filterCommand prim0 true true (.ok key0) .encrypt "a.env" [1, 2, 3]).stdout
      = filterCommand prim0 true true (.ok key0) .encrypt "a.env" [1, 2, 3])
    ∧ (∃ c, encrypt prim0 [1, 2, 3] key0 = .ok c ∧
        filterCommand prim0 true true (.ok key0) .encrypt "a.env" [1, 2, 3] = ⟨c, false⟩) :=
  ⟨c5_filter_clean prim0 true true (.ok key0) "a.env" [1, 2, 3],
   (c5_filter_clean prim0 true true (.ok key0) "a.env" [1, 2, 3]).2.2.1 key0
     rfl rfl (by decide) rfl (by simp [key0, FILE_KEY_SIZE])⟩

/-- C6 as literally claimed is false: the code writes a capital-C
`[ENCRYPTED: Cannot decrypt P]`, not the lowercase `cannot` of the claim.
Concrete counterexample: tracked path `"P"`, a valid frame, an unwrap
failure; stdout differs from the claimed lowercase placeholder. -/
theorem c6_placeholder_counterexample :
    (filterCommand prim0 true true (.error "unwrap failed") .decrypt "P"
        (MAGIC_HEADER ++ List.replicate NONCE_SIZE 0)).stdout
      ≠ strBytes "[ENCRYPTED: cannot decrypt P]\n"
    ∧ (filterCommand prim0 true true (.error "unwrap failed") .decrypt "P"
        (MAGIC_HEADER ++ List.replicate NONCE_SIZE 0)).stdout
      = strBytes "[ENCRYPTED: Cannot decrypt P]\n" := by
  constructor <;> decide

/-- C6 (amended): on a tracked path whose input is a valid encrypted frame
and whose FileKey cannot be unwrapped, stdout receives exactly
`[ENCRYPTED: Cannot decrypt P]\n` (capital C), with `P` the literal path,
and nothing else; a warning goes to the diagnostic channel. -/
theorem c6_placeholder_amended (prim : CryptoPrim) (file : String)
    (fileKey : Except String (List Nat)) (b : List Nat)
    (hb : b.take MAGIC_HEADER.length = MAGIC_HEADER)
    (he : ∃ e, fileKey = .error e) :
    filterCommand prim true true fileKey .decrypt file b =
      ⟨strBytes ("[ENCRYPTED: Cannot decrypt " ++ file ++ "]\n"), true⟩ := by
  obtain ⟨e, he⟩ := he
  simp [filterCommand, handleDecrypt, (isEncrypted_iff b).mpr hb, he]

/-- Witness for C6 (amended) at path `"P"` on a concrete valid frame. -/
theorem c6_placeholder_amended_witness :
    filterCommand prim0 true true (.error "unwrap failed") .decrypt "P"
        (MAGIC_HEADER ++ List.replicate NONCE_SIZE 0) =
      ⟨strBytes ("[ENCRYPTED: Cannot decrypt " ++ "P" ++ "]\n"), true⟩ :=
  c6_placeholder_amended prim0 "P" (.error "unwrap failed")
    (MAGIC_HEADER ++ List.replicate NONCE_SIZE 0)
    (by decide) ⟨"unwrap failed", rfl⟩

/-- Witness for C10 at the 3-byte key `[1, 2, 3]`. -/
theorem c10_key_size_guard_witness :
    encrypt prim0 [9] [1, 2, 3] = .error (invalidKeySizeMsg 3)
    ∧ decrypt prim0 (MAGIC_HEADER ++ []) [1, 2, 3] = .error (invalidKeySizeMsg 3)
    ∧ splitFileKey [1, 2, 3] = .error (invalidKeySizeMsg 3)
    ∧ ∀ g, g.length = FILE_KEY_SIZE → ∃ s, splitFileKey g = .ok s :=
  c10_key_size_guard prim0 [1, 2, 3] [9] [] (by simp [FILE_KEY_SIZE, AES_KEY_SIZE, HMAC_KEY_SIZE])

/-! ### Attribute manager (`src/lib/gitattributes.ts`)

File contents are `List Char`.  `splitOnNl` is JavaScript's
`content.split('\n')` and `trimList` is `String.prototype.trim` restricted
to the whitespace characters that matter for blank-line detection. -/

/-- `content.split('\n')`: split into segments at every newline, keeping
empty segments (`''.split('\n') == ['']`). -/
def splitOnNl : List Char → List (List Char)
  | [] => [[]]
  | c :: rest =>
    if c = '\n' then [] :: splitOnNl rest
    else
      match splitOnNl rest with
      | [] => [[c]]
      | h :: t => (c :: h) :: t

/-- `line.trim()`: drop leading and trailing whitespace. -/
def trimList (l : List Char) : List Char :=
  ((l.dropWhile Char.isWhitespace).reverse.dropWhile Char.isWhitespace).reverse

/-- `parseLines` from `src/lib/gitattributes.ts`: split on newlines and drop
lines that are blank after trimming. -/
def parseLines (content : List Char) : List (List Char) :=
  (splitOnNl content).filter (fun line => trimList line != [])

/-- The fixed attribute payload appended after the path. -/
def FILTER_SUFFIX : List Char := (" filter=seekgits diff=seekgits").data

/-- The exact line maintained for a tracked path:
`${file} filter=seekgits diff=seekgits`. -/
def filterLine (file : List Char) : List Char := file ++ FILTER_SUFFIX

/-- `hasFilter` from `src/lib/gitattributes.ts`: exact-line set membership. -/
def hasFilter (content file : List Char) : Bool :=
  (parseLines content).contains (filterLine file)

lemma splitOnNl_append_nl (l : List Char) (hl : '\n' ∉ l) :
    splitOnNl (l ++ ['\n']) = [l, []] := by
  induction l with
  | nil => rfl
  | cons c rest ih =>
    have hc : ¬ c = '\n' := fun h => hl (h ▸ List.mem_cons_self c rest)
    have hrest : '\n' ∉ rest := fun h => hl (List.mem_cons_of_mem c h)
    simp only [List.cons_append, splitOnNl, if_neg hc, List.append_eq, ih hrest]

lemma mem_dropWhile_of_not {c : Char} {l : List Char}
    (hc : ¬ Char.isWhitespace c) (hm : c ∈ l) :
    c ∈ l.dropWhile Char.isWhitespace := by
  induction l with
  | nil => cases hm
  | cons a rest ih =>
    by_cases ha : Char.isWhitespace a = true
    · rw [List.dropWhile_cons_of_pos ha]
      rcases List.mem_cons.mp hm with rfl | hmem
      · exact absurd ha hc
      · exact ih hmem
    · rw [List.dropWhile_cons_of_neg ha]
      exact hm

lemma trimList_ne_nil {c : Char} {l : List Char}
    (hc : ¬ Char.isWhitespace c) (hm : c ∈ l) : trimList l ≠ [] := by
  intro h
  have h1 : c ∈ l.dropWhile Char.isWhitespace := mem_dropWhile_of_not hc hm
  have h2 : c ∈ (l.dropWhile Char.isWhitespace).reverse := List.mem_reverse.mpr h1
  have h3 : c ∈ (l.dropWhile Char.isWhitespace).reverse.dropWhile Char.isWhitespace :=
    mem_dropWhile_of_not hc h2
  have h4 : c ∈ trimList l := List.mem_reverse.mpr h3
  rw [h] at h4
  cases h4

lemma trimList_filterLine_ne_nil (file : List Char) : trimList (filterLine file) ≠ [] := by
  refine trimList_ne_nil (c := 'f') (by decide) ?_
  unfold filterLine FILTER_SUFFIX
  simp

lemma parseLines_single (other : List Char) (ho : '\n' ∉ other) :
    parseLines (filterLine other ++ ['\n']) = [filterLine other] := by
  have hnl : '\n' ∉ filterLine other := by
    intro h
    rcases List.mem_append.mp h with h1 | h2
    · exact ho h1
    · revert h2; decide
  have ht : (trimList (filterLine other) != []) = true :=
    bne_iff_ne.mpr (trimList_filterLine_ne_nil other)
  rw [parseLines, splitOnNl_append_nl _ hnl]
  simp [List.filter, ht]
  rfl

/-- C8: For every path `P` and attribute-file content, `hasFilter` is true
iff the exact line `P filter=seekgits diff=seekgits` is one of the parsed
lines; a file holding only the line for another newline-free path matches
exactly that path, so `hasFilter "x"` is false when the file only has a line
for `"prefix/x"`. -/
theorem c8_hasFilter_exact (content file : List Char) :
    (hasFilter content file = true ↔ filterLine file ∈ parseLines content)
    ∧ (∀ other : List Char, '\n' ∉ other →
        (hasFilter (filterLine other ++ ['\n']) file = true ↔ file = other))
    ∧ hasFilter ("prefix/x filter=seekgits diff=seekgits\n").data ("x").data = false
    ∧ hasFilter ("prefix/x filter=seekgits diff=seekgits\n").data ("prefix/x").data = true := by
  refine ⟨?_, ?_, by decide, by decide⟩
  · simp [hasFilter]
  · intro other ho
    rw [hasFilter, parseLines_single other ho]
    simp only [List.contains_cons, List.contains_nil, Bool.or_false, beq_iff_eq]
    constructor
    · intro h
      exact List.append_cancel_right h
    · intro h
      rw [h]

/-- Witness for C8: the second conjunct instantiated at the newline-free
path `"prefix/x"` shows exact matching on a one-line file. -/
theorem c8_hasFilter_exact_witness :
    (hasFilter ("other.txt line\n").data ("x").data = true ↔
      filterLine ("x").data ∈ parseLines ("other.txt line\n").data)
    ∧ (hasFilter (filterLine ("prefix/x").data ++ ['\n']) ("x").data = true ↔
        ("x").data = ("prefix/x").data) :=
  ⟨(c8_hasFilter_exact ("other.txt line\n").data ("x").data).1,
   (c8_hasFilter_exact (filterLine ("prefix/x").data ++ ['\n']) ("x").data).2.1
     ("prefix/x").data (by decide)⟩

/-! ### Config store (`src/lib/secrets.ts`)

The manifest is modelled with insertion-ordered association lists, matching
the key order JavaScript objects preserve and `Object.keys` reports. -/

/-- `FileConfig` from `src/types.ts`: recipient → GPG-wrapped file key, in
insertion order. -/
structure FileConfig where
  keys : List (String × String)
deriving DecidableEq, Repr

/-- `SecretsConfig` from `src/types.ts`. -/
structure SecretsConfig where
  version : Nat
  files : List (String × FileConfig)
deriving DecidableEq, Repr

/-- `config.files[file]`: look the path up in the manifest. -/
def lookupFile (config : SecretsConfig) (file : String) : Option FileConfig :=
  (config.files.find? (fun kv => kv.1 == file)).map Prod.snd

/-- The error thrown when a path is absent from the manifest. -/
def notTrackedMsg (file : String) : String :=
  "File \"" ++ file ++ "\" is not tracked."

/-- `getRecipients` from `src/lib/secrets.ts`: throw if untracked, else
return `Object.keys(fileConfig.keys)` — the stored key order, unsorted. -/
def getRecipients (config : SecretsConfig) (file : String) : Except String (List String) :=
  match lookupFile config file with
  | none => .error (notTrackedMsg file)
  | some fc => .ok (fc.keys.map Prod.fst)

/-- A manifest whose recipients were inserted in non-alphabetical order. -/
def cfg0 : SecretsConfig := ⟨1, [("app.env", ⟨[("bob", "wrapB"), ("alice", "wrapA")]⟩)]⟩

/-- C9 as claimed is false: `getRecipients` returns `Object.keys` in stored
insertion order without sorting.  On a manifest whose keys were inserted as
`bob` then `alice`, it returns `["bob", "alice"]`, which is not sorted
lexicographically. -/
theorem c9_get_recipients_counterexample :
    getRecipients cfg0 "app.env" = .ok ["bob", "alice"]
    ∧ ¬ List.Sorted (fun a b : String => a ≤ b) ["bob", "alice"] := by
  constructor
  · rfl
  · intro h
    have hle : ("bob" : String) ≤ "alice" :=
      (List.sorted_cons.mp h).1 "alice" (List.mem_singleton.mpr rfl)
    have hlt : ("alice" : String) < "bob" := by
      rw [String.lt_iff_toList_lt]; decide
    exact absurd hlt (not_lt.mpr hle)

/-- C9 (amended): `getRecipients` returns the recipient identifiers in the
manifest's stored (insertion) order — exactly the key order of the path's
`keys` map, unsorted — and throws the not-tracked error when the path is
absent. -/
theorem c9_get_recipients_order (config : SecretsConfig) (file : String) :
    (lookupFile config file = none →
      getRecipients config file = .error (notTrackedMsg file))
    ∧ ∀ fc, lookupFile config file = some fc →
        getRecipients config file = .ok (fc.keys.map Prod.fst) := by
  constructor
  · intro h; simp [getRecipients, h]
  · intro fc h; simp [getRecipients, h]

/-- Witness for C9 (amended) on the concrete manifest `cfg0`. -/
theorem c9_get_recipients_order_witness :
    getRecipients cfg0 "app.env" = .ok ((⟨[("bob", "wrapB"), ("alice", "wrapA")]⟩ : FileConfig).keys.map Prod.fst) :=
  (c9_get_recipients_order cfg0 "app.env").2 ⟨[("bob", "wrapB"), ("alice", "wrapA")]⟩ rfl

end Seekgits
